import Mathlib

/-!
Verification of the AITradingSimulator core against its specification.

The development shallowly embeds the repository's Python code over exact
rationals: the per-model ledger backed by the SQLite store (`database.py`),
the trading engine (`trading_engine.py`), the market-data aggregator's cache
and fallback logic (`market_data.py`), and the risk manager
(`services/risk_manager.py`).  Machine floats are modelled as `ℚ`; dicts are
association lists; the SQLite tables scoped to one model are a record of
lists kept in insertion order.
-/

namespace AITrading

/-- Position side: the `side` column is the string `'long'` or `'short'`;
every branch in the code tests `side == 'long'` and treats anything else as
short, and only these two values are ever written. -/
inductive Side
  | long
  | short
deriving DecidableEq

/-- Sign of a side as used in the spec: +1 for long, -1 for short. -/
def sideSign : Side → ℚ
  | .long => 1
  | .short => -1

/-- A row of the `portfolios` table (scoped to one model).  `leverage` is an
INTEGER column; `stop_loss` / `take_profit` are nullable REAL columns. -/
structure Position where
  coin : String
  quantity : ℚ
  avg_price : ℚ
  leverage : Int
  side : Side
  stop_loss : Option ℚ
  take_profit : Option ℚ
deriving DecidableEq

/-- A row of the append-only `trades` table (scoped to one model). -/
structure Trade where
  coin : String
  signal : String
  quantity : ℚ
  price : ℚ
  leverage : Int
  side : Side
  pnl : ℚ
deriving DecidableEq

/-- A row of the append-only `account_values` table (scoped to one model). -/
structure AccountSnapshot where
  total_value : ℚ
  cash : ℚ
  positions_value : ℚ
deriving DecidableEq

/-- The persistent store scoped to a single model id: the model's
`initial_capital`, its `portfolios` rows in insertion (rowid) order, and the
append-only `trades` and `account_values` tables, oldest first. -/
structure DBState where
  initial_capital : ℚ
  positions : List Position
  trades : List Trade
  account_values : List AccountSnapshot
deriving DecidableEq

/-- `Database.update_position`: `INSERT ... ON CONFLICT(model_id, coin, side)
DO UPDATE SET quantity/avg_price/leverage/stop_loss/take_profit` — an upsert
keyed by (coin, side) that replaces all fields. -/
def update_position (db : DBState) (coin : String) (quantity avg_price : ℚ)
    (leverage : Int) (side : Side) (sl tp : Option ℚ) : DBState :=
  let p : Position := ⟨coin, quantity, avg_price, leverage, side, sl, tp⟩
  if db.positions.any (fun q => q.coin == coin && q.side == side) then
    { db with positions :=
        db.positions.map (fun q =>
          if q.coin == coin && q.side == side then p else q) }
  else
    { db with positions := db.positions ++ [p] }

/-- `Database.close_position`: `DELETE FROM portfolios WHERE model_id = ? AND
coin = ? AND side = ?`. -/
def close_position (db : DBState) (coin : String) (side : Side) : DBState :=
  { db with positions :=
      db.positions.filter (fun q => !(q.coin == coin && q.side == side)) }

/-- `Database.add_trade`: append-only insert into `trades`. -/
def add_trade (db : DBState) (t : Trade) : DBState :=
  { db with trades := db.trades ++ [t] }

/-- `Database.record_account_value`: append-only insert into
`account_values`. -/
def record_account_value (db : DBState) (total_value cash positions_value : ℚ) :
    DBState :=
  { db with account_values :=
      db.account_values ++ [⟨total_value, cash, positions_value⟩] }

/-- `Database.get_trades`: `SELECT * FROM trades ... ORDER BY timestamp DESC
LIMIT ?` — the newest `limit` trades, newest first. -/
def get_trades (db : DBState) (limit : Nat) : List Trade :=
  db.trades.reverse.take limit

/-- `Database.get_account_value_history`: newest `limit` snapshots, newest
first. -/
def get_account_value_history (db : DBState) (limit : Nat) :
    List AccountSnapshot :=
  db.account_values.reverse.take limit

/-- Association-list lookup, first match wins (Python dict access). -/
def alistGet? {κ α : Type} [DecidableEq κ] : List (κ × α) → κ → Option α
  | [], _ => none
  | (k, v) :: rest, key => if k = key then some v else alistGet? rest key

/-- Position-level P&L as computed in `get_portfolio`, `_execute_close` and
`_check_stop_loss_take_profit`: `(current - entry) * quantity` for a long,
`(entry - current) * quantity` for a short. -/
def posPnl (side : Side) (current entry quantity : ℚ) : ℚ :=
  match side with
  | .long => (current - entry) * quantity
  | .short => (entry - current) * quantity

/-- The dict returned by `Database.get_portfolio` (per-position price/pnl
annotations aside, which are derived and not read back by the core). -/
structure Portfolio where
  cash : ℚ
  positions : List Position
  positions_value : ℚ
  margin_used : ℚ
  total_value : ℚ
  realized_pnl : ℚ
  unrealized_pnl : ℚ

/-- `Database.get_portfolio`: positions are the rows with `quantity > 0`;
`realized_pnl = SUM(pnl) over trades`; `margin_used = Σ quantity * avg_price
/ leverage`; a position whose coin has no current price contributes 0 to
unrealized P&L; `cash = initial_capital + realized_pnl - margin_used`;
`total_value = initial_capital + realized_pnl + unrealized_pnl`. -/
def get_portfolio (db : DBState) (current_prices : List (String × ℚ)) :
    Portfolio :=
  let positions := db.positions.filter (fun p => decide (0 < p.quantity))
  let realized_pnl := (db.trades.map Trade.pnl).sum
  let margin_used :=
    (positions.map (fun p => p.quantity * p.avg_price / (p.leverage : ℚ))).sum
  let unrealized_pnl :=
    (positions.map (fun p =>
      match alistGet? current_prices p.coin with
      | some cp => posPnl p.side cp p.avg_price p.quantity
      | none => 0)).sum
  let cash := db.initial_capital + realized_pnl - margin_used
  let positions_value := (positions.map (fun p => p.quantity * p.avg_price)).sum
  let total_value := db.initial_capital + realized_pnl + unrealized_pnl
  { cash := cash, positions := positions, positions_value := positions_value,
    margin_used := margin_used, total_value := total_value,
    realized_pnl := realized_pnl, unrealized_pnl := unrealized_pnl }

/-- The Ledger mutations named by the spec: open/add via `update_position`,
close via `close_position`, trade append via `add_trade`. -/
inductive LedgerMutation
  | update (coin : String) (quantity avg_price : ℚ) (leverage : Int)
      (side : Side) (sl tp : Option ℚ)
  | close (coin : String) (side : Side)
  | trade (t : Trade)

/-- Apply one Ledger mutation to the store. -/
def applyMutation (db : DBState) : LedgerMutation → DBState
  | .update coin q a l s sl tp => update_position db coin q a l s sl tp
  | .close coin side => close_position db coin side
  | .trade t => add_trade db t

/-- Apply a sequence of Ledger mutations. -/
def applyMutations (db : DBState) (ms : List LedgerMutation) : DBState :=
  ms.foldl applyMutation db

theorem applyMutation_initial_capital (db : DBState) (m : LedgerMutation) :
    (applyMutation db m).initial_capital = db.initial_capital := by
  cases m with
  | update coin q a l s sl tp =>
    simp only [applyMutation, update_position]
    split <;> rfl
  | close coin side => rfl
  | trade t => rfl

theorem applyMutations_initial_capital (db : DBState)
    (ms : List LedgerMutation) :
    (applyMutations db ms).initial_capital = db.initial_capital := by
  induction ms generalizing db with
  | nil => rfl
  | cons m rest ih =>
    simpa [applyMutations, List.foldl_cons, applyMutation_initial_capital]
      using (ih (applyMutation db m)).trans
        (applyMutation_initial_capital db m)

/-- Claim C1: after every sequence of Ledger mutations (open/add via
`update_position`, close via `close_position`, trade append via
`add_trade`), the portfolio view returned by `get_portfolio` satisfies
`cash + margin_used = initial_capital + realized_pnl` exactly, where
`margin_used` is the sum over open positions of
`quantity * avg_price / leverage` and `realized_pnl` is the sum of `pnl`
over all recorded trades of the model. -/
theorem cash_margin_invariant (db : DBState) (ms : List LedgerMutation)
    (prices : List (String × ℚ)) :
    (get_portfolio (applyMutations db ms) prices).cash
        + (get_portfolio (applyMutations db ms) prices).margin_used
      = db.initial_capital
        + (get_portfolio (applyMutations db ms) prices).realized_pnl ∧
    (get_portfolio (applyMutations db ms) prices).margin_used
      = (((applyMutations db ms).positions.filter
            (fun p => decide (0 < p.quantity))).map
          (fun p => p.quantity * p.avg_price / (p.leverage : ℚ))).sum ∧
    (get_portfolio (applyMutations db ms) prices).realized_pnl
      = ((applyMutations db ms).trades.map Trade.pnl).sum := by
  refine ⟨?_, rfl, rfl⟩
  have h := applyMutations_initial_capital db ms
  simp only [get_portfolio]
  rw [← h]
  ring

/-! ## Risk manager (`services/risk_manager.py`) -/

/-- One iteration of the drawdown loop in
`RiskManager._calculate_max_drawdown`: state is `(peak, max_drawdown)`;
`if value > peak: peak = value`, then
`drawdown = (peak - value) / peak if peak > 0 else 0`, then
`max_drawdown = max(max_drawdown, drawdown)`. -/
def ddStep (s : ℚ × ℚ) (value : ℚ) : ℚ × ℚ :=
  let peak := if s.1 < value then value else s.1
  let drawdown := if 0 < peak then (peak - value) / peak else 0
  (peak, max s.2 drawdown)

/-- Drawdown loop body of `RiskManager._calculate_max_drawdown`: takes the
fetched history (newest first), reverses it to oldest-first, and runs the
running-peak loop seeded with `peak = values[0]`, `max_drawdown = 0`. -/
def mddOf (history : List AccountSnapshot) : ℚ :=
  if history = [] then 0
  else
    match history.reverse.map AccountSnapshot.total_value with
    | [] => 0
    | v0 :: rest => ((v0 :: rest).foldl ddStep (v0, 0)).2

/-- `RiskManager._calculate_max_drawdown`: fetches the newest 1000 account
snapshots and runs the running-peak loop over them oldest to newest. -/
def calculate_max_drawdown (db : DBState) : ℚ :=
  mddOf (get_account_value_history db 1000)

/-- Spec-side drawdown recursion, written from the spec's words: iterate the
values oldest to newest, `peak` is the largest total_value seen so far
(including the current point), drawdown at each point is
`(peak - value) / peak`, and the maximum observed is reported. -/
def specMDDGo (peak maxdd : ℚ) : List ℚ → ℚ
  | [] => maxdd
  | v :: rest => specMDDGo (max peak v) (max maxdd ((max peak v - v) / max peak v)) rest

/-- Spec-side maximum drawdown of a value series (oldest first): 0 for an
empty series, else the running-peak maximum. -/
def specMaxDrawdown : List ℚ → ℚ
  | [] => 0
  | v0 :: rest => specMDDGo v0 0 (v0 :: rest)

/-- A store holding only an account-value history (used for concrete
drawdown computations). -/
def dbHist (vals : List ℚ) : DBState :=
  ⟨10000, [], [], vals.map (fun v => ⟨v, 0, 0⟩)⟩

theorem foldl_ddStep_eq_specGo (l : List ℚ) (peak m : ℚ) (hpeak : 0 < peak)
    (hl : ∀ v ∈ l, 0 < v) :
    (l.foldl ddStep (peak, m)).2 = specMDDGo peak m l := by
  induction l generalizing peak m with
  | nil => rfl
  | cons v rest ih =>
    have hv : 0 < v := hl v (by simp)
    have hrest : ∀ x ∈ rest, 0 < x := fun x hx => hl x (by simp [hx])
    have hpk : (if peak < v then v else peak) = max peak v := by
      rcases le_or_lt v peak with h | h
      · simp [max_eq_left h, not_lt.mpr h]
      · simp [max_eq_right h.le, h]
    have hpos : 0 < max peak v := lt_max_of_lt_left hpeak
    simp only [List.foldl_cons, specMDDGo, ddStep, hpk, if_pos hpos]
    exact ih (max peak v) _ hpos hrest

theorem foldl_ddStep_monotone (l : List ℚ) (peak : ℚ)
    (hle : ∀ v ∈ l, peak ≤ v) (hmono : l.Pairwise (· ≤ ·)) :
    (l.foldl ddStep (peak, 0)).2 = 0 := by
  induction l generalizing peak with
  | nil => rfl
  | cons v rest ih =>
    have hpv : peak ≤ v := hle v (by simp)
    have hpk : (if peak < v then v else peak) = v := by
      rcases lt_or_le peak v with h | h
      · simp [h]
      · simp [not_lt.mpr h, le_antisymm h hpv]
    have hdd : (if (0:ℚ) < v then (v - v) / v else 0) = 0 := by
      split <;> simp
    simp only [List.foldl_cons, ddStep, hpk, hdd, max_self]
    exact ih v (fun x hx => (List.pairwise_cons.mp hmono).1 x hx)
      (List.pairwise_cons.mp hmono).2

theorem sublist_reverse_take_reverse {α : Type} (l : List α) (n : Nat) :
    (l.reverse.take n).reverse.Sublist l := by
  have h1 : (l.reverse.take n).Sublist l.reverse := List.take_sublist n l.reverse
  have h2 := h1.reverse
  simpa using h2

theorem mddOf_eq_spec (h : List AccountSnapshot)
    (hpos : ∀ s ∈ h, 0 < s.total_value) :
    mddOf h = specMaxDrawdown (h.reverse.map AccountSnapshot.total_value) := by
  unfold mddOf
  rcases hh : h with _ | ⟨a, t⟩
  · simp [specMaxDrawdown]
  · rw [if_neg (by simp)]
    have hvals : ∀ v ∈ (a :: t).reverse.map AccountSnapshot.total_value, 0 < v := by
      intro v hv
      rcases List.mem_map.mp hv with ⟨s, hs, rfl⟩
      exact hpos s (by rw [hh]; exact List.mem_reverse.mp hs)
    rcases hrev : (a :: t).reverse.map AccountSnapshot.total_value with _ | ⟨v0, rest⟩
    · exact absurd hrev (by simp)
    · rw [hrev] at hvals
      rw [specMaxDrawdown]
      exact foldl_ddStep_eq_specGo (v0 :: rest) v0 0 (hvals v0 (by simp)) hvals

theorem mddOf_monotone (h : List AccountSnapshot)
    (hmono : (h.reverse.map AccountSnapshot.total_value).Pairwise (· ≤ ·)) :
    mddOf h = 0 := by
  unfold mddOf
  rcases hh : h with _ | ⟨a, t⟩
  · simp
  · rw [if_neg (by simp)]
    rcases hrev : (a :: t).reverse.map AccountSnapshot.total_value with _ | ⟨v0, rest⟩
    · exact absurd hrev (by simp)
    · rw [hh, hrev] at hmono
      exact foldl_ddStep_monotone (v0 :: rest) v0
        (by
          intro v hv
          rcases List.mem_cons.mp hv with rfl | hv
          · exact le_refl _
          · exact (List.pairwise_cons.mp hmono).1 v hv)
        hmono

/-- Claim C7: `_calculate_max_drawdown` implements the classic running-peak
method — on a positive-valued history of at most the 1000-row query limit it
equals the spec-side oldest-to-newest running-peak maximum of
`(peak - value) / peak`; a monotonically increasing series gives 0; the
series `[100, 50, 100]` gives `0.5`; an empty history gives 0. -/
theorem max_drawdown_correct :
    (∀ db : DBState, db.account_values.length ≤ 1000 →
        (∀ s ∈ db.account_values, 0 < s.total_value) →
        calculate_max_drawdown db
          = specMaxDrawdown (db.account_values.map AccountSnapshot.total_value)) ∧
    (∀ db : DBState,
        (db.account_values.map AccountSnapshot.total_value).Pairwise (· ≤ ·) →
        calculate_max_drawdown db = 0) ∧
    calculate_max_drawdown (dbHist [100, 50, 100]) = 1/2 ∧
    calculate_max_drawdown (dbHist []) = 0 := by
  refine ⟨?_, ?_,
    by
      norm_num [calculate_max_drawdown, get_account_value_history, dbHist,
        mddOf, ddStep, max_def]
      simp,
    by simp [calculate_max_drawdown, get_account_value_history, dbHist, mddOf]⟩
  · intro db hlen hpos
    unfold calculate_max_drawdown get_account_value_history
    rw [List.take_of_length_le (by simpa using hlen)]
    rw [mddOf_eq_spec db.account_values.reverse
      (fun s hs => hpos s (List.mem_reverse.mp hs))]
    rw [List.reverse_reverse]
  · intro db hmono
    unfold calculate_max_drawdown get_account_value_history
    apply mddOf_monotone
    have hsub : ((db.account_values.reverse.take 1000).reverse.map
        AccountSnapshot.total_value).Sublist
        (db.account_values.map AccountSnapshot.total_value) :=
      (sublist_reverse_take_reverse db.account_values 1000).map _
    exact hmono.sublist hsub

/-- Why trading is paused.  The code returns Chinese reason strings; the
branch taken is what the constructors record (`drawdownCritical` for the
drawdown > 25% message, `losingStreak` for five consecutive losses,
`lowCash` for cash below 10% of total value, `ok` for the not-paused
result). -/
inductive PauseReason
  | drawdownCritical
  | losingStreak
  | lowCash
  | ok
deriving DecidableEq

/-- `config.MAX_DRAWDOWN_CRITICAL = 0.25`. -/
def MAX_DRAWDOWN_CRITICAL : ℚ := 1/4

/-- `RiskManager.should_pause_trading`: pause on drawdown above the critical
threshold, else on five most recent trades all losing (`get_trades(limit=5)`
and `len >= 5` with every `pnl < 0`), else on
`cash < total_value * 0.1`; otherwise do not pause. -/
def should_pause_trading (db : DBState) (pf : Portfolio) : Bool × PauseReason :=
  if MAX_DRAWDOWN_CRITICAL < calculate_max_drawdown db then
    (true, .drawdownCritical)
  else if 5 ≤ (get_trades db 5).length ∧
      ∀ t ∈ (get_trades db 5).take 5, t.pnl < 0 then
    (true, .losingStreak)
  else if pf.cash < pf.total_value * (1/10) then
    (true, .lowCash)
  else
    (false, .ok)

/-- Spec-side pause rule, written from the claim's words: paused exactly when
max drawdown exceeds 25%, or the 5 most recent trades all have `pnl < 0`
(never with fewer than 5 trades), or available cash is less than 10% of
total value; the checks run in that order and the first matching rule's
reason is returned. -/
def shouldPauseSpec (maxDrawdown : ℚ) (pnlsNewestFirst : List ℚ)
    (cash totalValue : ℚ) : Bool × PauseReason :=
  if 1/4 < maxDrawdown then
    (true, .drawdownCritical)
  else if 5 ≤ pnlsNewestFirst.length ∧
      ∀ x ∈ pnlsNewestFirst.take 5, x < 0 then
    (true, .losingStreak)
  else if cash < totalValue / 10 then
    (true, .lowCash)
  else
    (false, .ok)

/-- Claim C6: `should_pause_trading` returns paused exactly when max drawdown
exceeds 25%, or the 5 most recent trades all have `pnl < 0` (with fewer than
5 trades this rule never triggers), or available cash is less than 10% of
`total_value`; the checks are made in that order and the reason of the first
matching rule is returned, otherwise not-paused — it coincides with the
spec-side rule applied to the model's drawdown, newest-first trade pnl list,
cash and total value. -/
theorem should_pause_trading_spec (db : DBState) (pf : Portfolio) :
    should_pause_trading db pf
      = shouldPauseSpec (calculate_max_drawdown db)
          (db.trades.reverse.map Trade.pnl) pf.cash pf.total_value := by
  unfold should_pause_trading shouldPauseSpec MAX_DRAWDOWN_CRITICAL
  have h2 : (5 ≤ (get_trades db 5).length ∧
        ∀ t ∈ (get_trades db 5).take 5, t.pnl < 0)
      ↔ (5 ≤ (db.trades.reverse.map Trade.pnl).length ∧
        ∀ x ∈ (db.trades.reverse.map Trade.pnl).take 5, x < 0) := by
    unfold get_trades
    rw [List.length_take, List.take_take, List.length_map]
    constructor
    · rintro ⟨hlen, hall⟩
      refine ⟨le_trans hlen (min_le_right _ _), ?_⟩
      intro x hx
      rw [← List.map_take] at hx
      rcases List.mem_map.mp hx with ⟨t, ht, rfl⟩
      exact hall t (by simpa using ht)
    · rintro ⟨hlen, hall⟩
      refine ⟨le_min (le_refl 5) hlen, ?_⟩
      intro t ht
      exact hall t.pnl (by
        rw [← List.map_take]
        exact List.mem_map.mpr ⟨t, by simpa using ht, rfl⟩)
  have h3 : (pf.cash < pf.total_value * (1/10))
      ↔ (pf.cash < pf.total_value / 10) := by
    rw [mul_one_div]
  simp only [h2, h3]

/-- Closed witness for Claim C7's quantified parts, at the concrete history
`[100, 50, 100]`. -/
theorem max_drawdown_correct_witness :
    calculate_max_drawdown (dbHist [100, 50, 100])
      = specMaxDrawdown ((dbHist [100, 50, 100]).account_values.map
          AccountSnapshot.total_value) :=
  max_drawdown_correct.1 (dbHist [100, 50, 100]) (by norm_num [dbHist])
    (by
      intro s hs
      simp only [dbHist, List.map_cons, List.map_nil, List.mem_cons,
        List.not_mem_nil, or_false] at hs
      rcases hs with rfl | rfl | rfl <;> norm_num)

/-! ## Trading engine (`trading_engine.py`, constants from `config.py`) -/

/-- `config.SUPPORTED_COINS`. -/
def SUPPORTED_COINS : List String := ["BTC", "ETH", "SOL", "BNB", "XRP", "DOGE"]

/-- `config.MIN_LEVERAGE`. -/
def MIN_LEVERAGE : Int := 1

/-- `config.MAX_LEVERAGE`. -/
def MAX_LEVERAGE : Int := 20

/-- A per-coin decision dict from the provider.  `signal` models the
already-lowercased signal string (the code reads
`decision.get('signal', '').lower()`).  `quantity` is `none` when
`float(decision.get('quantity', 0))` would raise (non-numeric); a missing
quantity is `some 0`.  `leverage` is `none` when `int(...)` would raise; a
missing leverage is `some 1`. -/
structure Decision where
  signal : String
  quantity : Option ℚ
  leverage : Option Int
  stop_loss : Option ℚ := none
  profit_target : Option ℚ := none
  take_profit : Option ℚ := none
deriving DecidableEq

/-- Python `a or b` over optional floats: the first operand if it is truthy
(present and nonzero), else the second (used for
`decision.get('profit_target') or decision.get('take_profit')`). -/
def pyOrQ : Option ℚ → Option ℚ → Option ℚ
  | some x, b => if x = 0 then b else some x
  | none, b => b

/-- One entry of the per-coin execution results list.  Error strings are
abbreviated to stable tags ("Validation failed", "Insufficient cash",
"Position not found", "KeyError", "Unknown signal"); the code's messages
carry the same distinctions plus interpolated values. -/
structure ExecResult where
  coin : String
  signal : Option String := none
  error : Option String := none
  pnl : Option ℚ := none
deriving DecidableEq

/-- `TradingEngine._validate_quantity` together with the
`float(...)` conversion: valid iff numeric, strictly positive and at most
1000. -/
def quantityValid : Option ℚ → Bool
  | none => false
  | some q => decide (0 < q) && decide (q ≤ 1000)

/-- `TradingEngine._validate_leverage` together with the `int(...)`
conversion: valid iff an integer within `[MIN_LEVERAGE, MAX_LEVERAGE]`. -/
def leverageValid : Option Int → Bool
  | none => false
  | some l => decide (MIN_LEVERAGE ≤ l) && decide (l ≤ MAX_LEVERAGE)

/-- `TradingEngine._execute_buy`: convert quantity and leverage, read the
market price (a missing coin raises `KeyError`, caught by the per-coin
handler in `_execute_decisions`), validate, check margin against the cycle's
portfolio snapshot cash, then upsert a long position and append a
`buy_to_enter` trade with pnl 0. -/
def execute_buy (db : DBState) (coin : String) (d : Decision)
    (market : List (String × ℚ)) (pf : Portfolio) : ExecResult × DBState :=
  match d.quantity with
  | none => ({ coin := coin, error := some "Validation failed" }, db)
  | some quantity =>
    match d.leverage with
    | none => ({ coin := coin, error := some "Validation failed" }, db)
    | some leverage =>
      match alistGet? market coin with
      | none => ({ coin := coin, error := some "KeyError" }, db)
      | some price =>
        if quantity ≤ 0 then
          ({ coin := coin, error := some "Validation failed" }, db)
        else if 1000 < quantity then
          ({ coin := coin, error := some "Validation failed" }, db)
        else if leverage < MIN_LEVERAGE ∨ MAX_LEVERAGE < leverage then
          ({ coin := coin, error := some "Validation failed" }, db)
        else if pf.cash < quantity * price / (leverage : ℚ) then
          ({ coin := coin, error := some "Insufficient cash" }, db)
        else
          let db1 := update_position db coin quantity price leverage .long
            d.stop_loss (pyOrQ d.profit_target d.take_profit)
          let db2 := add_trade db1
            ⟨coin, "buy_to_enter", quantity, price, leverage, .long, 0⟩
          ({ coin := coin, signal := some "buy_to_enter" }, db2)

/-- `TradingEngine._execute_sell`: as `_execute_buy` but opens a short and
appends a `sell_to_enter` trade. -/
def execute_sell (db : DBState) (coin : String) (d : Decision)
    (market : List (String × ℚ)) (pf : Portfolio) : ExecResult × DBState :=
  match d.quantity with
  | none => ({ coin := coin, error := some "Validation failed" }, db)
  | some quantity =>
    match d.leverage with
    | none => ({ coin := coin, error := some "Validation failed" }, db)
    | some leverage =>
      match alistGet? market coin with
      | none => ({ coin := coin, error := some "KeyError" }, db)
      | some price =>
        if quantity ≤ 0 then
          ({ coin := coin, error := some "Validation failed" }, db)
        else if 1000 < quantity then
          ({ coin := coin, error := some "Validation failed" }, db)
        else if leverage < MIN_LEVERAGE ∨ MAX_LEVERAGE < leverage then
          ({ coin := coin, error := some "Validation failed" }, db)
        else if pf.cash < quantity * price / (leverage : ℚ) then
          ({ coin := coin, error := some "Insufficient cash" }, db)
        else
          let db1 := update_position db coin quantity price leverage .short
            d.stop_loss (pyOrQ d.profit_target d.take_profit)
          let db2 := add_trade db1
            ⟨coin, "sell_to_enter", quantity, price, leverage, .short, 0⟩
          ({ coin := coin, signal := some "sell_to_enter" }, db2)

/-- `TradingEngine._execute_close`: scan the portfolio snapshot for the
first position whose coin matches (the side is not inspected), read the
current price, compute the signed pnl, delete that (coin, side) position and
append a `close_position` trade carrying the pnl. -/
def execute_close (db : DBState) (coin : String)
    (market : List (String × ℚ)) (pf : Portfolio) : ExecResult × DBState :=
  match pf.positions.find? (fun p => p.coin == coin) with
  | none => ({ coin := coin, error := some "Position not found" }, db)
  | some position =>
    match alistGet? market coin with
    | none => ({ coin := coin, error := some "KeyError" }, db)
    | some current_price =>
      let pnl := posPnl position.side current_price position.avg_price
        position.quantity
      let db1 := close_position db coin position.side
      let db2 := add_trade db1
        ⟨coin, "close_position", position.quantity, current_price,
          position.leverage, position.side, pnl⟩
      ({ coin := coin, signal := some "close_position", pnl := some pnl }, db2)

/-- Dispatch on the signal string — the body of the `_execute_decisions`
loop for one coin (the surrounding `try/except` turns any raised error into
an error entry for that coin only). -/
def execute_one (db : DBState) (coin : String) (d : Decision)
    (market : List (String × ℚ)) (pf : Portfolio) : ExecResult × DBState :=
  if d.signal = "buy_to_enter" then execute_buy db coin d market pf
  else if d.signal = "sell_to_enter" then execute_sell db coin d market pf
  else if d.signal = "close_position" then execute_close db coin market pf
  else if d.signal = "hold" then ({ coin := coin, signal := some "hold" }, db)
  else ({ coin := coin, error := some "Unknown signal" }, db)

/-- `TradingEngine._execute_decisions`: process the decision map in order;
coins outside `SUPPORTED_COINS` are skipped without a result; every other
decision contributes exactly one result, and a failure for one coin never
stops the remaining coins. -/
def execute_decisions (market : List (String × ℚ)) (pf : Portfolio) :
    DBState → List (String × Decision) → List ExecResult × DBState
  | db, [] => ([], db)
  | db, (coin, d) :: rest =>
    if coin ∈ SUPPORTED_COINS then
      let rd := execute_one db coin d market pf
      let rs := execute_decisions market pf rd.2 rest
      (rd.1 :: rs.1, rs.2)
    else
      execute_decisions market pf db rest

/-- Python truthiness of an optional float (`if stop_loss:`): present and
nonzero. -/
def truthyQ : Option ℚ → Bool
  | none => false
  | some x => decide (x ≠ 0)

/-- Stop-loss trigger: long when `current_price <= stop_loss`, short when
`current_price >= stop_loss`. -/
def stopTriggered (side : Side) (cp sl : ℚ) : Bool :=
  match side with
  | .long => decide (cp ≤ sl)
  | .short => decide (sl ≤ cp)

/-- Take-profit trigger: long when `current_price >= take_profit`, short
when `current_price <= take_profit`. -/
def takeTriggered (side : Side) (cp tp : ℚ) : Bool :=
  match side with
  | .long => decide (tp ≤ cp)
  | .short => decide (cp ≤ tp)

/-- The combined `should_close` flag of `_check_stop_loss_take_profit`:
a truthy stop_loss whose directional trigger holds, or (otherwise) a truthy
take_profit whose directional trigger holds. -/
def shouldAutoClose (pos : Position) (cp : ℚ) : Bool :=
  (truthyQ pos.stop_loss && stopTriggered pos.side cp (pos.stop_loss.getD 0)) ||
  (truthyQ pos.take_profit && takeTriggered pos.side cp (pos.take_profit.getD 0))

/-- The `auto_close` trade appended for a triggered position. -/
def autoCloseTrade (pos : Position) (cp : ℚ) : Trade :=
  ⟨pos.coin, "auto_close", pos.quantity, cp, pos.leverage, pos.side,
    posPnl pos.side cp pos.avg_price pos.quantity⟩

/-- Loop of `TradingEngine._check_stop_loss_take_profit` over the snapshot's
positions: positions whose coin has no current price are skipped; a
triggered position is deleted and an `auto_close` trade with the signed pnl
is appended. -/
def checkStopGo (market : List (String × ℚ)) :
    DBState → List Position → List ExecResult × DBState
  | db, [] => ([], db)
  | db, pos :: rest =>
    match alistGet? market pos.coin with
    | none => checkStopGo market db rest
    | some cp =>
      if shouldAutoClose pos cp then
        let db2 := add_trade (close_position db pos.coin pos.side)
          (autoCloseTrade pos cp)
        let rs := checkStopGo market db2 rest
        ({ coin := pos.coin, signal := some "auto_close",
            pnl := some (posPnl pos.side cp pos.avg_price pos.quantity) }
          :: rs.1, rs.2)
      else checkStopGo market db rest

/-- `TradingEngine._check_stop_loss_take_profit`. -/
def check_stop_loss_take_profit (db : DBState) (pf : Portfolio)
    (market : List (String × ℚ)) : List ExecResult × DBState :=
  checkStopGo market db pf.positions

/-- Observable events of one trading cycle, in program order: each
`db.add_trade` call and the single `ai_trader.make_decision` call. -/
inductive CycleEvent
  | trade (t : Trade)
  | providerCall
deriving DecidableEq

/-- Result of one cycle: the merged per-coin results, the final store, and
the event trace. -/
structure CycleResult where
  results : List ExecResult
  db : DBState
  trace : List CycleEvent

/-- Trades appended between two store states (the new store extends the old
one's trade log). -/
def newTrades (dbOld dbNew : DBState) : List Trade :=
  dbNew.trades.drop dbOld.trades.length

/-- `TradingEngine.execute_trading_cycle` (success path): snapshot the
portfolio, run the stop-loss/take-profit sweep, call the decision provider
on the snapshot, execute the decisions, then re-snapshot and append an
account-value row.  Conversation storage is presentation-only and omitted.
The trace records every trade appended by the sweep, then the provider
call, then every trade appended by decision execution. -/
def execute_trading_cycle (db : DBState) (current_prices : List (String × ℚ))
    (provider : Portfolio → List (String × Decision)) : CycleResult :=
  let pf := get_portfolio db current_prices
  let sr := check_stop_loss_take_profit db pf current_prices
  let decisions := provider pf
  let er := execute_decisions current_prices pf sr.2 decisions
  let updated := get_portfolio er.2 current_prices
  let db3 := record_account_value er.2 updated.total_value updated.cash
    updated.positions_value
  { results := sr.1 ++ er.1, db := db3,
    trace := (newTrades db sr.2).map CycleEvent.trade
      ++ CycleEvent.providerCall :: (newTrades sr.2 er.2).map CycleEvent.trade }

theorem checkStopGo_trades_append (market : List (String × ℚ))
    (ps : List Position) (db : DBState) :
    ∃ l, (checkStopGo market db ps).2.trades = db.trades ++ l := by
  induction ps generalizing db with
  | nil => exact ⟨[], by simp [checkStopGo]⟩
  | cons pos rest ih =>
    unfold checkStopGo
    cases h : alistGet? market pos.coin with
    | none => exact ih db
    | some cp =>
      by_cases hac : shouldAutoClose pos cp = true
      · simp only [hac, if_true]
        rcases ih (add_trade (close_position db pos.coin pos.side)
            (autoCloseTrade pos cp)) with ⟨l, hl⟩
        refine ⟨autoCloseTrade pos cp :: l, ?_⟩
        rw [hl]
        simp [add_trade, close_position]
      · simp only [Bool.not_eq_true] at hac
        simp only [hac, Bool.false_eq_true, if_false]
        exact ih db

theorem checkStopGo_positions_sublist (market : List (String × ℚ))
    (ps : List Position) (db : DBState) :
    (checkStopGo market db ps).2.positions.Sublist db.positions := by
  induction ps generalizing db with
  | nil => simp [checkStopGo]
  | cons pos rest ih =>
    unfold checkStopGo
    cases h : alistGet? market pos.coin with
    | none => exact ih db
    | some cp =>
      by_cases hac : shouldAutoClose pos cp = true
      · simp only [hac, if_true]
        refine (ih _).trans ?_
        simp only [add_trade, close_position]
        exact List.filter_sublist _
      · simp only [Bool.not_eq_true] at hac
        simp only [hac, Bool.false_eq_true, if_false]
        exact ih db

theorem drop_len_append {α : Type} (l1 l2 : List α) :
    (l1 ++ l2).drop l1.length = l2 :=
  List.drop_left l1 l2

theorem checkStopGo_mem_trade (market : List (String × ℚ))
    (ps : List Position) (db : DBState) (pos : Position) (cp : ℚ)
    (hmem : pos ∈ ps) (hcp : alistGet? market pos.coin = some cp)
    (hac : shouldAutoClose pos cp = true) :
    autoCloseTrade pos cp
      ∈ (checkStopGo market db ps).2.trades.drop db.trades.length := by
  induction ps generalizing db with
  | nil => cases hmem
  | cons p rest ih =>
    rcases List.mem_cons.mp hmem with heq | hmem2
    · subst heq
      unfold checkStopGo
      rw [hcp]
      simp only [hac, if_true]
      rcases checkStopGo_trades_append market rest
          (add_trade (close_position db pos.coin pos.side)
            (autoCloseTrade pos cp)) with ⟨l, hl⟩
      rw [hl]
      simp only [add_trade, close_position, List.append_assoc]
      rw [drop_len_append]
      simp
    · unfold checkStopGo
      cases h : alistGet? market p.coin with
      | none => exact ih db hmem2
      | some cp2 =>
        by_cases hac2 : shouldAutoClose p cp2 = true
        · simp only [hac2, if_true]
          have ihh := ih (add_trade (close_position db p.coin p.side)
            (autoCloseTrade p cp2)) hmem2
          rcases checkStopGo_trades_append market rest
              (add_trade (close_position db p.coin p.side)
                (autoCloseTrade p cp2)) with ⟨l, hl⟩
          rw [hl, drop_len_append] at ihh
          rw [hl]
          simp only [add_trade, close_position, List.append_assoc]
          rw [drop_len_append]
          exact List.mem_append.mpr (Or.inr ihh)
        · simp only [Bool.not_eq_true] at hac2
          simp only [hac2, Bool.false_eq_true, if_false]
          exact ih db hmem2

theorem checkStopGo_closes (market : List (String × ℚ))
    (ps : List Position) (db : DBState) (pos : Position) (cp : ℚ)
    (hmem : pos ∈ ps) (hcp : alistGet? market pos.coin = some cp)
    (hac : shouldAutoClose pos cp = true) :
    ∀ q ∈ (checkStopGo market db ps).2.positions,
      ¬(q.coin = pos.coin ∧ q.side = pos.side) := by
  induction ps generalizing db with
  | nil => cases hmem
  | cons p rest ih =>
    rcases List.mem_cons.mp hmem with heq | hmem2
    · subst heq
      unfold checkStopGo
      rw [hcp]
      simp only [hac, if_true]
      intro q hq
      have hq2 := (checkStopGo_positions_sublist market rest _).subset hq
      simp only [add_trade, close_position, List.mem_filter] at hq2
      rintro ⟨h1, h2⟩
      rcases hq2 with ⟨-, hfalse⟩
      simp [h1, h2] at hfalse
    · unfold checkStopGo
      cases h : alistGet? market p.coin with
      | none => exact ih db hmem2
      | some cp2 =>
        by_cases hac2 : shouldAutoClose p cp2 = true
        · simp only [hac2, if_true]
          exact ih _ hmem2
        · simp only [Bool.not_eq_true] at hac2
          simp only [hac2, Bool.false_eq_true, if_false]
          exact ih db hmem2

/-- Claim C2: in every trading cycle, an open position with a set
(truthy) stop_loss or take_profit whose directional trigger holds at the
available current price (long: price ≤ stop_loss, short: price ≥ stop_loss;
mirrored for take_profit) is closed, and an `auto_close` trade with
`pnl = sign(side) * (current_price - avg_price) * quantity` is recorded
strictly before the DecisionProvider call of that cycle. -/
theorem auto_close_before_provider (db : DBState)
    (prices : List (String × ℚ))
    (provider : Portfolio → List (String × Decision))
    (pos : Position) (cp : ℚ)
    (hmem : pos ∈ (get_portfolio db prices).positions)
    (hcp : alistGet? prices pos.coin = some cp)
    (htrig :
      (∃ sl, pos.stop_loss = some sl ∧ sl ≠ 0 ∧
        stopTriggered pos.side cp sl = true) ∨
      (∃ tp, pos.take_profit = some tp ∧ tp ≠ 0 ∧
        takeTriggered pos.side cp tp = true)) :
    ∃ pre post,
      (execute_trading_cycle db prices provider).trace
          = pre ++ CycleEvent.providerCall :: post ∧
      CycleEvent.trade (autoCloseTrade pos cp) ∈ pre ∧
      (autoCloseTrade pos cp).pnl
          = sideSign pos.side * (cp - pos.avg_price) * pos.quantity ∧
      ∀ q ∈ (check_stop_loss_take_profit db (get_portfolio db prices)
          prices).2.positions, ¬(q.coin = pos.coin ∧ q.side = pos.side) := by
  have hac : shouldAutoClose pos cp = true := by
    rcases htrig with ⟨sl, hsl, hne, hst⟩ | ⟨tp, htp, hne, htt⟩
    · simp [shouldAutoClose, truthyQ, hsl, hne, hst]
    · simp [shouldAutoClose, truthyQ, htp, hne, htt]
  refine ⟨(newTrades db (check_stop_loss_take_profit db
      (get_portfolio db prices) prices).2).map CycleEvent.trade,
    (newTrades (check_stop_loss_take_profit db (get_portfolio db prices)
        prices).2
      (execute_decisions prices (get_portfolio db prices)
        (check_stop_loss_take_profit db (get_portfolio db prices) prices).2
        (provider (get_portfolio db prices))).2).map CycleEvent.trade,
    rfl, ?_, ?_, ?_⟩
  · exact List.mem_map.mpr ⟨autoCloseTrade pos cp,
      checkStopGo_mem_trade prices (get_portfolio db prices).positions db
        pos cp hmem hcp hac, rfl⟩
  · cases hside : pos.side <;>
      simp [autoCloseTrade, posPnl, sideSign, hside]
  · exact checkStopGo_closes prices (get_portfolio db prices).positions db
      pos cp hmem hcp hac

/-- A long BTC position of quantity 1 at 50000 with stop_loss 42000. -/
def posW : Position := ⟨"BTC", 1, 50000, 1, .long, some 42000, none⟩

/-- A store holding only `posW`. -/
def dbW : DBState := ⟨10000, [posW], [], []⟩

/-- Current prices with BTC at 41000, below the stop. -/
def pricesW : List (String × ℚ) := [("BTC", 41000)]

/-- Closed witness for Claim C2: the concrete long position `posW` with
stop_loss 42000 at price 41000 is auto-closed before the provider call. -/
theorem auto_close_before_provider_witness :
    ∃ pre post,
      (execute_trading_cycle dbW pricesW (fun _ => [])).trace
          = pre ++ CycleEvent.providerCall :: post ∧
      CycleEvent.trade (autoCloseTrade posW 41000) ∈ pre ∧
      (autoCloseTrade posW 41000).pnl
          = sideSign posW.side * (41000 - posW.avg_price) * posW.quantity ∧
      ∀ q ∈ (check_stop_loss_take_profit dbW (get_portfolio dbW pricesW)
          pricesW).2.positions, ¬(q.coin = posW.coin ∧ q.side = posW.side) :=
  auto_close_before_provider dbW pricesW (fun _ => []) posW 41000
    (by norm_num [get_portfolio, dbW, posW])
    (by norm_num [alistGet?, pricesW, posW])
    (Or.inl ⟨42000, rfl, by norm_num, by norm_num [posW, stopTriggered]⟩)

theorem update_position_trades (db : DBState) (coin : String)
    (q a : ℚ) (l : Int) (s : Side) (sl tp : Option ℚ) :
    (update_position db coin q a l s sl tp).trades = db.trades := by
  unfold update_position
  split <;> rfl

theorem close_position_trades (db : DBState) (coin : String) (s : Side) :
    (close_position db coin s).trades = db.trades := rfl

theorem trades_append_add_update (db db1 : DBState) (t : Trade)
    (h : db1.trades = db.trades) :
    ∃ l, (add_trade db1 t).trades = db.trades ++ l :=
  ⟨[t], by simp [add_trade, h]⟩

theorem execute_buy_trades_append (db : DBState) (coin : String)
    (d : Decision) (market : List (String × ℚ)) (pf : Portfolio) :
    ∃ l, (execute_buy db coin d market pf).2.trades = db.trades ++ l := by
  unfold execute_buy
  repeat' split
  all_goals
    first
    | exact ⟨[], (List.append_nil _).symm⟩
    | exact trades_append_add_update db _ _
        (by simp [update_position_trades])

theorem execute_sell_trades_append (db : DBState) (coin : String)
    (d : Decision) (market : List (String × ℚ)) (pf : Portfolio) :
    ∃ l, (execute_sell db coin d market pf).2.trades = db.trades ++ l := by
  unfold execute_sell
  repeat' split
  all_goals
    first
    | exact ⟨[], (List.append_nil _).symm⟩
    | exact trades_append_add_update db _ _
        (by simp [update_position_trades])

theorem execute_close_trades_append (db : DBState) (coin : String)
    (market : List (String × ℚ)) (pf : Portfolio) :
    ∃ l, (execute_close db coin market pf).2.trades = db.trades ++ l := by
  unfold execute_close
  repeat' split
  all_goals
    first
    | exact ⟨[], (List.append_nil _).symm⟩
    | exact trades_append_add_update db _ _
        (by simp [close_position_trades])

theorem execute_one_trades_append (db : DBState) (coin : String)
    (d : Decision) (market : List (String × ℚ)) (pf : Portfolio) :
    ∃ l, (execute_one db coin d market pf).2.trades = db.trades ++ l := by
  unfold execute_one
  repeat' split
  all_goals
    first
    | exact execute_buy_trades_append db coin d market pf
    | exact execute_sell_trades_append db coin d market pf
    | exact execute_close_trades_append db coin market pf
    | exact ⟨[], (List.append_nil _).symm⟩

theorem execute_decisions_trades_append (market : List (String × ℚ))
    (pf : Portfolio) (ds : List (String × Decision)) (db : DBState) :
    ∃ l, (execute_decisions market pf db ds).2.trades = db.trades ++ l := by
  induction ds generalizing db with
  | nil => exact ⟨[], by simp [execute_decisions]⟩
  | cons cd rest ih =>
    unfold execute_decisions
    split
    · rcases execute_one_trades_append db cd.1 cd.2 market pf with ⟨l1, h1⟩
      rcases ih (execute_one db cd.1 cd.2 market pf).2 with ⟨l2, h2⟩
      exact ⟨l1 ++ l2, by rw [h2, h1, List.append_assoc]⟩
    · exact ih db

theorem execute_buy_invalid_quantity (db : DBState) (coin : String)
    (d : Decision) (market : List (String × ℚ)) (pf : Portfolio)
    (hq : quantityValid d.quantity = false) :
    (execute_buy db coin d market pf).1.coin = coin ∧
    (execute_buy db coin d market pf).1.error.isSome := by
  cases hdq : d.quantity with
  | none => simp [execute_buy, hdq]
  | some q =>
    have hq2 : q ≤ 0 ∨ 1000 < q := by
      rw [hdq] at hq
      simp only [quantityValid, Bool.and_eq_false_iff,
        decide_eq_false_iff_not, not_lt, not_le] at hq
      exact hq
    cases hdl : d.leverage with
    | none => simp [execute_buy, hdq, hdl]
    | some lev =>
      cases hm : alistGet? market coin with
      | none => simp [execute_buy, hdq, hdl, hm]
      | some price =>
        rcases hq2 with h1 | h1
        · simp [execute_buy, hdq, hdl, hm, h1]
        · have h0 : ¬ q ≤ 0 := not_le.mpr (lt_trans (by norm_num) h1)
          simp [execute_buy, hdq, hdl, hm, h0, h1]

theorem execute_sell_invalid_quantity (db : DBState) (coin : String)
    (d : Decision) (market : List (String × ℚ)) (pf : Portfolio)
    (hq : quantityValid d.quantity = false) :
    (execute_sell db coin d market pf).1.coin = coin ∧
    (execute_sell db coin d market pf).1.error.isSome := by
  cases hdq : d.quantity with
  | none => simp [execute_sell, hdq]
  | some q =>
    have hq2 : q ≤ 0 ∨ 1000 < q := by
      rw [hdq] at hq
      simp only [quantityValid, Bool.and_eq_false_iff,
        decide_eq_false_iff_not, not_lt, not_le] at hq
      exact hq
    cases hdl : d.leverage with
    | none => simp [execute_sell, hdq, hdl]
    | some lev =>
      cases hm : alistGet? market coin with
      | none => simp [execute_sell, hdq, hdl, hm]
      | some price =>
        rcases hq2 with h1 | h1
        · simp [execute_sell, hdq, hdl, hm, h1]
        · have h0 : ¬ q ≤ 0 := not_le.mpr (lt_trans (by norm_num) h1)
          simp [execute_sell, hdq, hdl, hm, h0, h1]

theorem execute_one_invalid_quantity (db : DBState) (coin : String)
    (d : Decision) (market : List (String × ℚ)) (pf : Portfolio)
    (hsig : d.signal = "buy_to_enter" ∨ d.signal = "sell_to_enter")
    (hq : quantityValid d.quantity = false) :
    (execute_one db coin d market pf).1.coin = coin ∧
    (execute_one db coin d market pf).1.error.isSome := by
  rcases hsig with h | h
  · unfold execute_one
    rw [h, if_pos rfl]
    exact execute_buy_invalid_quantity db coin d market pf hq
  · unfold execute_one
    rw [h, if_neg (by decide), if_pos rfl]
    exact execute_sell_invalid_quantity db coin d market pf hq

theorem execute_buy_success (db : DBState) (coin : String) (d : Decision)
    (market : List (String × ℚ)) (pf : Portfolio) (qty : ℚ) (lev : Int)
    (price : ℚ)
    (hq : d.quantity = some qty) (h0 : 0 < qty) (h1000 : qty ≤ 1000)
    (hl : d.leverage = some lev) (hlmin : MIN_LEVERAGE ≤ lev)
    (hlmax : lev ≤ MAX_LEVERAGE)
    (hp : alistGet? market coin = some price)
    (hmargin : qty * price / (lev : ℚ) ≤ pf.cash) :
    (execute_buy db coin d market pf).2.trades
      = db.trades ++ [⟨coin, "buy_to_enter", qty, price, lev, .long, 0⟩] := by
  unfold execute_buy
  rw [hq, hl, hp]
  have h2q : ¬(lev < MIN_LEVERAGE ∨ MAX_LEVERAGE < lev) := by
    push_neg
    exact ⟨hlmin, hlmax⟩
  simp [not_le.mpr h0, not_lt.mpr h1000, h2q, not_lt.mpr hmargin,
    add_trade, update_position_trades]

theorem execute_decisions_length (market : List (String × ℚ))
    (pf : Portfolio) (ds : List (String × Decision)) (db : DBState) :
    (execute_decisions market pf db ds).1.length
      = (ds.filter (fun p => decide (p.1 ∈ SUPPORTED_COINS))).length := by
  induction ds generalizing db with
  | nil => simp [execute_decisions]
  | cons cd rest ih =>
    unfold execute_decisions
    rcases cd with ⟨c, d⟩
    by_cases hc : c ∈ SUPPORTED_COINS
    · rw [if_pos hc]
      simp only [List.filter_cons, decide_eq_true_eq, hc, if_pos,
        List.length_cons]
      simp [ih]
    · rw [if_neg hc]
      simp only [List.filter_cons]
      rw [if_neg (by simpa using hc)]
      exact ih db

/-- Claim C5: in one cycle's decision map, a buy/sell decision whose
quantity fails validation (non-numeric, not strictly positive, or greater
than 1000) yields an error result for its coin; every supported coin's
decision still yields exactly one result (no whole-map abort); and a valid
`buy_to_enter` for another coin in the same map still executes and appends
its trade. -/
theorem decision_error_isolation (db : DBState)
    (market : List (String × ℚ)) (pf : Portfolio)
    (ds : List (String × Decision)) (X : String) (dX : Decision)
    (hmem : (X, dX) ∈ ds) (hXc : X ∈ SUPPORTED_COINS)
    (hsig : dX.signal = "buy_to_enter" ∨ dX.signal = "sell_to_enter")
    (hq : quantityValid dX.quantity = false) :
    (∃ r ∈ (execute_decisions market pf db ds).1,
        r.coin = X ∧ r.error.isSome) ∧
    (execute_decisions market pf db ds).1.length
        = (ds.filter (fun p => decide (p.1 ∈ SUPPORTED_COINS))).length ∧
    (∀ (Y : String) (dY : Decision) (qty : ℚ) (lev : Int) (price : ℚ),
      (Y, dY) ∈ ds → Y ∈ SUPPORTED_COINS →
      dY.signal = "buy_to_enter" →
      dY.quantity = some qty → 0 < qty → qty ≤ 1000 →
      dY.leverage = some lev → MIN_LEVERAGE ≤ lev → lev ≤ MAX_LEVERAGE →
      alistGet? market Y = some price →
      qty * price / (lev : ℚ) ≤ pf.cash →
      (⟨Y, "buy_to_enter", qty, price, lev, .long, 0⟩ : Trade)
        ∈ (execute_decisions market pf db ds).2.trades) := by
  refine ⟨?_, execute_decisions_length market pf ds db, ?_⟩
  · induction ds generalizing db with
    | nil => cases hmem
    | cons cd rest ih =>
      rcases cd with ⟨c, d⟩
      rcases List.mem_cons.mp hmem with heq | hmem2
      · injection heq with h1 h2
        subst h1
        subst h2
        unfold execute_decisions
        rw [if_pos hXc]
        exact ⟨(execute_one db X dX market pf).1, List.mem_cons_self _ _,
          execute_one_invalid_quantity db X dX market pf hsig hq⟩
      · unfold execute_decisions
        by_cases hcs : c ∈ SUPPORTED_COINS
        · rw [if_pos hcs]
          rcases ih (execute_one db c d market pf).2 hmem2 with ⟨r, hr, hrp⟩
          exact ⟨r, List.mem_cons_of_mem _ hr, hrp⟩
        · rw [if_neg hcs]
          exact ih db hmem2
  · intro Y dY qty lev price hmemY hYc hsigY hqY h0 h1000 hlY hlmin hlmax
      hpY hmargin
    clear hmem
    induction ds generalizing db with
    | nil => cases hmemY
    | cons cd rest ih =>
      rcases cd with ⟨c, d⟩
      rcases List.mem_cons.mp hmemY with heq | hmem2
      · injection heq with h1 h2
        subst h1
        subst h2
        unfold execute_decisions
        rw [if_pos hYc]
        show (⟨Y, "buy_to_enter", qty, price, lev, .long, 0⟩ : Trade)
          ∈ (execute_decisions market pf
              (execute_one db Y dY market pf).2 rest).2.trades
        rcases execute_decisions_trades_append market pf rest
            (execute_one db Y dY market pf).2 with ⟨l, hl⟩
        rw [hl]
        refine List.mem_append.mpr (Or.inl ?_)
        have hbuy : (execute_one db Y dY market pf).2
            = (execute_buy db Y dY market pf).2 := by
          unfold execute_one
          rw [hsigY, if_pos rfl]
        rw [hbuy, execute_buy_success db Y dY market pf qty lev price hqY h0
          h1000 hlY hlmin hlmax hpY hmargin]
        exact List.mem_append.mpr (Or.inr (by simp))
      · unfold execute_decisions
        by_cases hcs : c ∈ SUPPORTED_COINS
        · rw [if_pos hcs]
          show (⟨Y, "buy_to_enter", qty, price, lev, .long, 0⟩ : Trade)
            ∈ (execute_decisions market pf
                (execute_one db c d market pf).2 rest).2.trades
          exact ih _ hmem2
        · rw [if_neg hcs]
          exact ih db hmem2

/-- A decision for BTC with quantity 2000, above the 1000 cap. -/
def dBad : Decision := ⟨"buy_to_enter", some 2000, some 1, none, none, none⟩

/-- A valid decision for ETH: buy 1 unit at leverage 1. -/
def dGood : Decision := ⟨"buy_to_enter", some 1, some 1, none, none, none⟩

/-- Market with BTC at 100 and ETH at 10. -/
def marketC5 : List (String × ℚ) := [("BTC", 100), ("ETH", 10)]

/-- A fresh portfolio snapshot with 10000 cash. -/
def pfC5 : Portfolio := ⟨10000, [], 0, 0, 10000, 0, 0⟩

/-- The two-coin decision map: invalid BTC quantity, valid ETH buy. -/
def dsC5 : List (String × Decision) := [("BTC", dBad), ("ETH", dGood)]

/-- An empty store with capital 10000. -/
def dbC5 : DBState := ⟨10000, [], [], []⟩

/-- Closed witness for Claim C5: the BTC decision with quantity 2000 yields
an error entry while the ETH buy in the same map still appends its trade. -/
theorem decision_error_isolation_witness :
    (∃ r ∈ (execute_decisions marketC5 pfC5 dbC5 dsC5).1,
        r.coin = "BTC" ∧ r.error.isSome) ∧
    (⟨"ETH", "buy_to_enter", 1, 10, 1, .long, 0⟩ : Trade)
      ∈ (execute_decisions marketC5 pfC5 dbC5 dsC5).2.trades := by
  have h := decision_error_isolation dbC5 marketC5 pfC5 dsC5 "BTC" dBad
    (List.Mem.head _) (List.Mem.head _) (Or.inl rfl)
    (by norm_num [quantityValid, dBad])
  refine ⟨h.1, h.2.2 "ETH" dGood 1 1 10 (List.Mem.tail _ (List.Mem.head _))
    (List.Mem.tail _ (List.Mem.head _)) rfl rfl (by norm_num) (by norm_num)
    rfl (by decide) (by decide) rfl (by norm_num [pfC5])⟩

/-- The pnl of closing at the entry price is exactly zero, both sides. -/
theorem posPnl_self (s : Side) (p q : ℚ) : posPnl s p p q = 0 := by
  cases s <;> simp [posPnl]

/-- The entering branch of the dispatch: `buy_to_enter` opens a long via
`_execute_buy`, `sell_to_enter` a short via `_execute_sell`. -/
def executeEntry (db : DBState) (coin : String) (d : Decision)
    (market : List (String × ℚ)) (pf : Portfolio) : Side → ExecResult × DBState
  | .long => execute_buy db coin d market pf
  | .short => execute_sell db coin d market pf

theorem execute_buy_success_state (db : DBState) (coin : String)
    (d : Decision) (market : List (String × ℚ)) (pf : Portfolio) (qty : ℚ)
    (lev : Int) (price : ℚ)
    (hq : d.quantity = some qty) (h0 : 0 < qty) (h1000 : qty ≤ 1000)
    (hl : d.leverage = some lev) (hlmin : MIN_LEVERAGE ≤ lev)
    (hlmax : lev ≤ MAX_LEVERAGE)
    (hp : alistGet? market coin = some price)
    (hmargin : qty * price / (lev : ℚ) ≤ pf.cash) :
    (execute_buy db coin d market pf).2
      = add_trade (update_position db coin qty price lev .long d.stop_loss
          (pyOrQ d.profit_target d.take_profit))
        ⟨coin, "buy_to_enter", qty, price, lev, .long, 0⟩ := by
  unfold execute_buy
  rw [hq, hl, hp]
  have h2q : ¬(lev < MIN_LEVERAGE ∨ MAX_LEVERAGE < lev) := by
    push_neg
    exact ⟨hlmin, hlmax⟩
  simp [not_le.mpr h0, not_lt.mpr h1000, h2q, not_lt.mpr hmargin]

theorem execute_sell_success_state (db : DBState) (coin : String)
    (d : Decision) (market : List (String × ℚ)) (pf : Portfolio) (qty : ℚ)
    (lev : Int) (price : ℚ)
    (hq : d.quantity = some qty) (h0 : 0 < qty) (h1000 : qty ≤ 1000)
    (hl : d.leverage = some lev) (hlmin : MIN_LEVERAGE ≤ lev)
    (hlmax : lev ≤ MAX_LEVERAGE)
    (hp : alistGet? market coin = some price)
    (hmargin : qty * price / (lev : ℚ) ≤ pf.cash) :
    (execute_sell db coin d market pf).2
      = add_trade (update_position db coin qty price lev .short d.stop_loss
          (pyOrQ d.profit_target d.take_profit))
        ⟨coin, "sell_to_enter", qty, price, lev, .short, 0⟩ := by
  unfold execute_sell
  rw [hq, hl, hp]
  have h2q : ¬(lev < MIN_LEVERAGE ∨ MAX_LEVERAGE < lev) := by
    push_neg
    exact ⟨hlmin, hlmax⟩
  simp [not_le.mpr h0, not_lt.mpr h1000, h2q, not_lt.mpr hmargin]

theorem update_position_fresh (db : DBState) (coin : String) (q a : ℚ)
    (l : Int) (s : Side) (sl tp : Option ℚ)
    (hfresh : ∀ p ∈ db.positions, p.coin ≠ coin) :
    (update_position db coin q a l s sl tp).positions
      = db.positions ++ [⟨coin, q, a, l, s, sl, tp⟩] := by
  unfold update_position
  have hany : db.positions.any (fun x => x.coin == coin && x.side == s)
      = false := by
    rw [List.any_eq_false]
    intro x hx
    simp [hfresh x hx]
  rw [if_neg (by simp [hany])]

/-- Claim C8: opening a position and immediately closing it at the same
price yields a realized pnl of exactly 0, for both long and short sides —
the closing trade appended by `_execute_close` after `_execute_buy` /
`_execute_sell` at the same price carries pnl 0, and in general
`posPnl side p p q = 0`. -/
theorem round_trip_pnl_zero (db : DBState) (coin : String) (d : Decision)
    (market : List (String × ℚ)) (pf : Portfolio) (side : Side)
    (qty : ℚ) (lev : Int) (price : ℚ)
    (hq : d.quantity = some qty) (h0 : 0 < qty) (h1000 : qty ≤ 1000)
    (hl : d.leverage = some lev) (hlmin : MIN_LEVERAGE ≤ lev)
    (hlmax : lev ≤ MAX_LEVERAGE)
    (hp : alistGet? market coin = some price)
    (hmargin : qty * price / (lev : ℚ) ≤ pf.cash)
    (hfresh : ∀ p ∈ db.positions, p.coin ≠ coin) :
    (∀ (s : Side) (p q : ℚ), posPnl s p p q = 0) ∧
    (execute_close (executeEntry db coin d market pf side).2 coin market
        (get_portfolio (executeEntry db coin d market pf side).2 market)).1.pnl
      = some 0 ∧
    (execute_close (executeEntry db coin d market pf side).2 coin market
        (get_portfolio (executeEntry db coin d market pf side).2
          market)).2.trades.getLast?
      = some ⟨coin, "close_position", qty, price, lev, side, 0⟩ := by
  have hentry : (executeEntry db coin d market pf side).2
      = add_trade (update_position db coin qty price lev side d.stop_loss
          (pyOrQ d.profit_target d.take_profit))
        ⟨coin, (match side with
          | Side.long => "buy_to_enter"
          | Side.short => "sell_to_enter"), qty, price, lev, side, 0⟩ := by
    cases side
    · exact execute_buy_success_state db coin d market pf qty lev price hq h0
        h1000 hl hlmin hlmax hp hmargin
    · exact execute_sell_success_state db coin d market pf qty lev price hq h0
        h1000 hl hlmin hlmax hp hmargin
  set newPos : Position := ⟨coin, qty, price, lev, side, d.stop_loss,
    (pyOrQ d.profit_target d.take_profit)⟩ with hnp
  have hpos1 : (executeEntry db coin d market pf side).2.positions
      = db.positions ++ [newPos] := by
    rw [hentry]
    simp only [add_trade]
    exact update_position_fresh db coin qty price lev side _ _ hfresh
  have hfilter : ((executeEntry db coin d market pf side).2.positions.filter
      (fun p => decide (0 < p.quantity)))
      = db.positions.filter (fun p => decide (0 < p.quantity)) ++ [newPos] := by
    rw [hpos1, List.filter_append]
    simp [hnp, h0]
  have hfind : ((get_portfolio (executeEntry db coin d market pf side).2
      market).positions.find? (fun p => p.coin == coin)) = some newPos := by
    show (((executeEntry db coin d market pf side).2.positions.filter
      (fun p => decide (0 < p.quantity))).find? (fun p => p.coin == coin))
      = some newPos
    rw [hfilter, List.find?_append]
    have hnone : (db.positions.filter
        (fun p => decide (0 < p.quantity))).find? (fun p => p.coin == coin)
        = none := by
      rw [List.find?_eq_none]
      intro x hx
      have hxm : x ∈ db.positions := List.mem_of_mem_filter hx
      simp [hfresh x hxm]
    rw [hnone]
    simp [hnp]
  refine ⟨posPnl_self, ?_, ?_⟩
  · unfold execute_close
    rw [hfind, hp]
    simp [hnp, posPnl_self]
  · unfold execute_close
    rw [hfind, hp]
    simp only [add_trade]
    rw [List.getLast?_concat]
    simp [hnp, posPnl_self]

/-- A concrete decision opening 1 BTC long at leverage 1. -/
def dC8 : Decision := ⟨"buy_to_enter", some 1, some 1, none, none, none⟩

/-- Closed witness for Claim C8: buying 1 BTC at 100 and closing at 100
books a `close_position` trade with pnl exactly 0. -/
theorem round_trip_pnl_zero_witness :
    (∀ (s : Side) (p q : ℚ), posPnl s p p q = 0) ∧
    (execute_close (executeEntry dbC5 "BTC" dC8 marketC5 pfC5 Side.long).2
        "BTC" marketC5
        (get_portfolio (executeEntry dbC5 "BTC" dC8 marketC5 pfC5
          Side.long).2 marketC5)).1.pnl
      = some 0 ∧
    (execute_close (executeEntry dbC5 "BTC" dC8 marketC5 pfC5 Side.long).2
        "BTC" marketC5
        (get_portfolio (executeEntry dbC5 "BTC" dC8 marketC5 pfC5
          Side.long).2 marketC5)).2.trades.getLast?
      = some ⟨"BTC", "close_position", 1, 100, 1, Side.long, 0⟩ :=
  round_trip_pnl_zero dbC5 "BTC" dC8 marketC5 pfC5 Side.long 1 1 100 rfl
    (by norm_num) (by norm_num) rfl (by decide) (by decide)
    rfl (by norm_num [pfC5])
    (by simp [dbC5])

/-- Claim C10: `_execute_close` selects the first snapshot position whose
coin matches, ignoring side; that position's side fixes the pnl sign of the
recorded `close_position` trade, only the (coin, that side) row is deleted,
and a same-coin position of the opposite side survives. -/
theorem close_picks_first_match (db : DBState) (market : List (String × ℚ))
    (pf : Portfolio) (coin : String) (p q : Position) (cp : ℚ)
    (hfind : pf.positions.find? (fun x => x.coin == coin) = some p)
    (hq : q ∈ db.positions) (hqc : q.coin = coin) (hside : q.side ≠ p.side)
    (hcp : alistGet? market coin = some cp) :
    (execute_close db coin market pf).1.signal = some "close_position" ∧
    (execute_close db coin market pf).1.pnl
        = some (sideSign p.side * (cp - p.avg_price) * p.quantity) ∧
    (⟨coin, "close_position", p.quantity, cp, p.leverage, p.side,
        posPnl p.side cp p.avg_price p.quantity⟩ : Trade)
      ∈ (execute_close db coin market pf).2.trades ∧
    q ∈ (execute_close db coin market pf).2.positions ∧
    ∀ r ∈ (execute_close db coin market pf).2.positions,
      ¬(r.coin = coin ∧ r.side = p.side) := by
  unfold execute_close
  rw [hfind, hcp]
  refine ⟨rfl, ?_, ?_, ?_, ?_⟩
  · cases hps : p.side <;> simp [posPnl, sideSign, hps]
  · simp [add_trade]
  · simp only [add_trade, close_position, List.mem_filter]
    refine ⟨hq, ?_⟩
    simp [hqc, hside]
  · intro r hr
    simp only [add_trade, close_position, List.mem_filter] at hr
    rintro ⟨h1, h2⟩
    rcases hr with ⟨-, hfalse⟩
    simp [h1, h2] at hfalse

/-- A long BTC position listed first in the store. -/
def posL10 : Position := ⟨"BTC", 1, 100, 1, .long, none, none⟩

/-- A short BTC position listed second. -/
def posS10 : Position := ⟨"BTC", 2, 120, 1, .short, none, none⟩

/-- Store holding the long position first and the short second. -/
def db10 : DBState := ⟨10000, [posL10, posS10], [], []⟩

/-- Market with BTC at 90. -/
def market10 : List (String × ℚ) := [("BTC", 90)]

/-- Closed witness for Claim C10: with a long and a short BTC position, the
long (listed first) is closed with a long-signed pnl; the short remains. -/
theorem close_picks_first_match_witness :
    (execute_close db10 "BTC" market10
        (get_portfolio db10 market10)).1.signal = some "close_position" ∧
    (execute_close db10 "BTC" market10 (get_portfolio db10 market10)).1.pnl
        = some (sideSign posL10.side * (90 - posL10.avg_price)
            * posL10.quantity) ∧
    (⟨"BTC", "close_position", posL10.quantity, 90, posL10.leverage,
        posL10.side, posPnl posL10.side 90 posL10.avg_price
          posL10.quantity⟩ : Trade)
      ∈ (execute_close db10 "BTC" market10
          (get_portfolio db10 market10)).2.trades ∧
    posS10 ∈ (execute_close db10 "BTC" market10
        (get_portfolio db10 market10)).2.positions ∧
    ∀ r ∈ (execute_close db10 "BTC" market10
        (get_portfolio db10 market10)).2.positions,
      ¬(r.coin = "BTC" ∧ r.side = posL10.side) :=
  close_picks_first_match db10 market10 (get_portfolio db10 market10) "BTC"
    posL10 posS10 90
    rfl (List.Mem.tail _ (List.Mem.head _)) rfl (by decide) rfl

/-! ## Market data aggregator (`market_data.py`) -/

/-- A per-coin quote: `{'price': ..., 'change_24h': ...}`. -/
structure Quote where
  price : ℚ
  change_24h : ℚ
deriving DecidableEq

/-- The dict returned for a set of coins. -/
abbrev PriceMap := List (String × Quote)

/-- One point of a historical series: `{'timestamp': ..., 'price': ...}`. -/
structure HistEntry where
  timestamp : ℚ
  price : ℚ
deriving DecidableEq

/-- A cached value: either a current-prices dict or a historical series. -/
inductive CacheVal
  | prices (m : PriceMap)
  | hist (h : List HistEntry)
deriving DecidableEq

/-- A cache key: `'prices_' + '_'.join(sorted(coins))` or
`'historical_[coin]_[days]'`, kept structured (the string encodings are
injective on these shapes). -/
inductive CacheKey
  | prices (coins : List String)
  | hist (coin : String) (days : Nat)
deriving DecidableEq

/-- The paired dicts `self._cache` / `self._cache_time`, keyed together
(they are always read and written together). -/
abbrev Cache := List (CacheKey × (CacheVal × ℚ))

/-- Aggregator state: the in-memory cache and the content of the persisted
cache file `market_data_cache.json`. -/
structure FetcherState where
  cache : Cache
  persisted : Cache
deriving DecidableEq

/-- Python dict assignment `cache[k] = v`: replace in place or append. -/
def setKey (c : Cache) (k : CacheKey) (v : CacheVal × ℚ) : Cache :=
  if c.any (fun p => p.1 == k) then
    c.map (fun p => if p.1 == k then (k, v) else p)
  else c ++ [(k, v)]

/-- `config.MARKET_API_CACHE_DURATION` (seconds). -/
def MARKET_API_CACHE_DURATION : ℚ := 5

/-- The 30-day staleness bound, `2592000` seconds. -/
def STALE_BOUND : ℚ := 2592000

/-- The 6-hour fresh TTL of historical entries. -/
def HIST_CACHE_DURATION : ℚ := 21600

/-- Lexicographic insertion of a string into a sorted list. -/
def insortStr (x : String) : List String → List String
  | [] => [x]
  | y :: ys => if x ≤ y then x :: y :: ys else y :: insortStr x ys

/-- Python `sorted(coins)` (lexicographic). -/
def sortCoins (coins : List String) : List String :=
  coins.foldr insortStr []

/-- The per-source success test of `get_current_prices`:
`prices and len(prices) == len(coins)` — a non-empty result covering every
requested coin. -/
def sourceOkPrices (coins : List String) (r : Option PriceMap) : Bool :=
  match r with
  | none => false
  | some m => !m.isEmpty && m.length == coins.length

/-- The source waterfall of `get_current_prices`: the first source whose
result is non-empty and covers all coins wins. -/
def firstOkPrices (coins : List String) :
    List (Option PriceMap) → Option PriceMap
  | [] => none
  | r :: rest =>
    match r with
    | some m =>
      if !m.isEmpty && m.length == coins.length then some m
      else firstOkPrices coins rest
    | none => firstOkPrices coins rest

/-- `get_current_prices` after the fresh-cache check failed: try the sources
in order; on success store the result in the in-memory cache (note: no
`_save_persistent_cache()` call on this path); on total failure fall back to
a cached entry younger than 30 days, else return the empty dict. -/
def gcpAfterFresh (st : FetcherState) (now : ℚ) (coins : List String)
    (sources : List (Option PriceMap)) (key : CacheKey) :
    PriceMap × FetcherState :=
  match firstOkPrices coins sources with
  | some m =>
    (m, { st with cache := setKey st.cache key (CacheVal.prices m, now) })
  | none =>
    match alistGet? st.cache key with
    | some (CacheVal.prices m, t) =>
      if now - t < STALE_BOUND then (m, st) else ([], st)
    | _ => ([], st)

/-- `MarketDataFetcher.get_current_prices`, with the network sources
abstracted as their per-call results (in waterfall order) and `time.time()`
as `now`. -/
def get_current_prices (st : FetcherState) (now : ℚ) (coins : List String)
    (sources : List (Option PriceMap)) : PriceMap × FetcherState :=
  match alistGet? st.cache (CacheKey.prices (sortCoins coins)) with
  | some (CacheVal.prices m, t) =>
    if now - t < MARKET_API_CACHE_DURATION then (m, st)
    else gcpAfterFresh st now coins sources (CacheKey.prices (sortCoins coins))
  | _ => gcpAfterFresh st now coins sources (CacheKey.prices (sortCoins coins))

/-- The historical waterfall success test is just `if prices:` — non-empty. -/
def firstOkHist : List (Option (List HistEntry)) → Option (List HistEntry)
  | [] => none
  | r :: rest =>
    match r with
    | some h => if !h.isEmpty then some h else firstOkHist rest
    | none => firstOkHist rest

/-- `get_historical_prices` after the fresh-cache check failed: the first
non-empty source result is cached and the whole cache is flushed to the
persisted file (`_save_persistent_cache()`); on total failure fall back to a
cached entry younger than 30 days, else return the empty list. -/
def ghpAfterFresh (st : FetcherState) (now : ℚ)
    (sources : List (Option (List HistEntry))) (key : CacheKey) :
    List HistEntry × FetcherState :=
  match firstOkHist sources with
  | some h =>
    let cache2 := setKey st.cache key (CacheVal.hist h, now)
    (h, { cache := cache2, persisted := cache2 })
  | none =>
    match alistGet? st.cache key with
    | some (CacheVal.hist h, t) =>
      if now - t < STALE_BOUND then (h, st) else ([], st)
    | _ => ([], st)

/-- `MarketDataFetcher.get_historical_prices`. -/
def get_historical_prices (st : FetcherState) (now : ℚ) (coin : String)
    (days : Nat) (sources : List (Option (List HistEntry))) :
    List HistEntry × FetcherState :=
  match alistGet? st.cache (CacheKey.hist coin days) with
  | some (CacheVal.hist h, t) =>
    if now - t < HIST_CACHE_DURATION then (h, st)
    else ghpAfterFresh st now sources (CacheKey.hist coin days)
  | _ => ghpAfterFresh st now sources (CacheKey.hist coin days)

theorem firstOkPrices_eq_none (coins : List String)
    (sources : List (Option PriceMap))
    (hfail : ∀ r ∈ sources, sourceOkPrices coins r = false) :
    firstOkPrices coins sources = none := by
  induction sources with
  | nil => rfl
  | cons r rest ih =>
    have hr := hfail r (by simp)
    have hrest : ∀ x ∈ rest, sourceOkPrices coins x = false :=
      fun x hx => hfail x (by simp [hx])
    cases r with
    | none => exact ih hrest
    | some m =>
      have hm : (!m.isEmpty && m.length == coins.length) = false := hr
      simp only [firstOkPrices, hm, Bool.false_eq_true, if_false]
      exact ih hrest

/-- Claim C3: when every source fails the all-coins test,
`get_current_prices` returns the cached entry for the sorted coin set
unchanged if it is younger than 30 days (2,592,000 s), and the empty map
otherwise — the state is left untouched and no prices are fabricated. -/
theorem all_sources_failed_fallback (st : FetcherState) (now : ℚ)
    (coins : List String) (sources : List (Option PriceMap))
    (hfail : ∀ r ∈ sources, sourceOkPrices coins r = false) :
    (get_current_prices st now coins sources).1
      = (match alistGet? st.cache (CacheKey.prices (sortCoins coins)) with
         | some (CacheVal.prices m, t) =>
           if now - t < STALE_BOUND then m else []
         | _ => []) ∧
    (get_current_prices st now coins sources).2 = st := by
  have hnone := firstOkPrices_eq_none coins sources hfail
  rcases hc : alistGet? st.cache (CacheKey.prices (sortCoins coins)) with
    _ | ⟨v, t⟩
  · simp only [get_current_prices, gcpAfterFresh, hnone, hc]
    refine ⟨?_, ?_⟩ <;> first | rfl | trivial
  · cases v with
    | prices m =>
      by_cases hfresh : now - t < MARKET_API_CACHE_DURATION
      · simp only [get_current_prices, hc, if_pos hfresh]
        refine ⟨?_, ?_⟩
        · rw [if_pos (lt_trans hfresh
            (by norm_num [MARKET_API_CACHE_DURATION, STALE_BOUND]))]
        · first | rfl | trivial
      · simp only [get_current_prices, gcpAfterFresh, hc, if_neg hfresh,
          hnone]
        refine ⟨?_, ?_⟩ <;> first | rfl | trivial | (split <;> rfl)
    | hist h =>
      simp only [get_current_prices, gcpAfterFresh, hnone, hc]
      refine ⟨?_, ?_⟩ <;> first | rfl | trivial

/-- A cached BTC quote. -/
def quoteW : Quote := ⟨30000, 1⟩

/-- The cached dict for the singleton coin set. -/
def mapW : PriceMap := [("BTC", quoteW)]

/-- Aggregator state holding a prices entry cached at time 0. -/
def stW3 : FetcherState :=
  ⟨[(CacheKey.prices ["BTC"], (CacheVal.prices mapW, 0))], []⟩

/-- Closed witness for Claim C3: with all four sources failing and the entry
aged 10 days (864,000 s), the stale entry is returned unchanged. -/
theorem all_sources_failed_fallback_witness :
    (get_current_prices stW3 864000 ["BTC"] [none, none, none, none]).1
        = mapW ∧
    (get_current_prices stW3 864000 ["BTC"] [none, none, none, none]).2
        = stW3 := by
  have h := all_sources_failed_fallback stW3 864000 ["BTC"]
    [none, none, none, none] (by intro r hr; fin_cases hr <;> rfl)
  refine ⟨h.1.trans ?_, h.2⟩
  show (if (864000 : ℚ) - 0 < STALE_BOUND then mapW else []) = mapW
  rw [if_pos (by norm_num [STALE_BOUND])]

/-- The successful source result used in the C4 counterexample. -/
def mC4 : PriceMap := [("BTC", ⟨100, 0⟩)]

/-- An aggregator state with empty cache and empty persisted file. -/
def stC4 : FetcherState := ⟨[], []⟩

/-- Counterexample to Claim C4 as stated: a successful current-prices
source fetch updates the in-memory cache, yet the persisted file is left
untouched — `get_current_prices` never calls `_save_persistent_cache`. -/
theorem current_prices_not_write_through :
    (get_current_prices stC4 0 ["BTC"] [some mC4]).2.cache ≠ stC4.cache ∧
    (get_current_prices stC4 0 ["BTC"] [some mC4]).2.persisted
      = stC4.persisted := by
  constructor
  · show (get_current_prices stC4 0 ["BTC"] [some mC4]).2.cache ≠ []
    simp [get_current_prices, gcpAfterFresh, stC4, alistGet?, sortCoins,
      insortStr, firstOkPrices, mC4, setKey]
  · rfl

/-- Claim C4 amended: only historical fetches are write-through — a
successful `get_historical_prices` update flushes the whole cache to the
persisted file (its state either is unchanged or satisfies
`persisted = cache`), while `get_current_prices` never writes the persisted
file at all. -/
theorem write_through_amended :
    (∀ (st : FetcherState) (now : ℚ) (coins : List String)
        (sources : List (Option PriceMap)),
      (get_current_prices st now coins sources).2.persisted = st.persisted) ∧
    (∀ (st : FetcherState) (now : ℚ) (coin : String) (days : Nat)
        (sources : List (Option (List HistEntry))),
      (get_historical_prices st now coin days sources).2 = st ∨
      (get_historical_prices st now coin days sources).2.persisted
        = (get_historical_prices st now coin days sources).2.cache) := by
  have hgcp : ∀ (st : FetcherState) (now : ℚ) (coins : List String)
      (sources : List (Option PriceMap)) (key : CacheKey),
      (gcpAfterFresh st now coins sources key).2.persisted = st.persisted := by
    intro st now coins sources key
    cases hs : firstOkPrices coins sources with
    | some m => simp only [gcpAfterFresh, hs]
    | none =>
      rcases hc2 : alistGet? st.cache key with _ | ⟨v2, t2⟩
      · simp only [gcpAfterFresh, hs, hc2]
      · cases v2 with
        | prices m =>
          simp only [gcpAfterFresh, hs, hc2]
          split <;> rfl
        | hist h => simp only [gcpAfterFresh, hs, hc2]
  have hghp : ∀ (st : FetcherState) (now : ℚ)
      (sources : List (Option (List HistEntry))) (key : CacheKey),
      (ghpAfterFresh st now sources key).2 = st ∨
      (ghpAfterFresh st now sources key).2.persisted
        = (ghpAfterFresh st now sources key).2.cache := by
    intro st now sources key
    cases hs : firstOkHist sources with
    | some h => exact Or.inr (by simp only [ghpAfterFresh, hs])
    | none =>
      rcases hc2 : alistGet? st.cache key with _ | ⟨v2, t2⟩
      · exact Or.inl (by simp only [ghpAfterFresh, hs, hc2])
      · cases v2 with
        | prices m => exact Or.inl (by simp only [ghpAfterFresh, hs, hc2])
        | hist h =>
          simp only [ghpAfterFresh, hs, hc2]
          split
          · exact Or.inl rfl
          · exact Or.inl rfl
  constructor
  · intro st now coins sources
    rcases hc : alistGet? st.cache (CacheKey.prices (sortCoins coins)) with
      _ | ⟨v, t⟩
    · simp only [get_current_prices, hc]
      exact hgcp st now coins sources _
    · cases v with
      | prices m =>
        simp only [get_current_prices, hc]
        split
        · rfl
        · exact hgcp st now coins sources _
      | hist h =>
        simp only [get_current_prices, hc]
        exact hgcp st now coins sources _
  · intro st now coin days sources
    rcases hc : alistGet? st.cache (CacheKey.hist coin days) with _ | ⟨v, t⟩
    · simp only [get_historical_prices, hc]
      exact hghp st now sources _
    · cases v with
      | hist h =>
        simp only [get_historical_prices, hc]
        split
        · exact Or.inl rfl
        · exact hghp st now sources _
      | prices m =>
        simp only [get_historical_prices, hc]
        exact hghp st now sources _

/-! ## Indicator engine (`MarketDataFetcher.calculate_technical_indicators`) -/

/-- Python `prices[-1] if prices else 0`. -/
def lastD (l : List ℚ) : ℚ :=
  match l.getLast? with
  | some p => p
  | none => 0

/-- Python `prices[-n:]` (the last `n` elements). -/
def takeLast (l : List ℚ) (n : Nat) : List ℚ :=
  (l.reverse.take n).reverse

/-- `MarketDataFetcher._calculate_ema`: below `period` points return the
last price (or 0 when empty); otherwise seed with the mean of the first
`period` points and fold `ema = (price - ema) * (2/(period+1)) + ema` over
the rest. -/
def calculate_ema (prices : List ℚ) (period : Nat) : ℚ :=
  if prices.length < period then lastD prices
  else
    (prices.drop period).foldl
      (fun ema price => (price - ema) * (2 / ((period : ℚ) + 1)) + ema)
      ((prices.take period).sum / (period : ℚ))

/-- `MarketDataFetcher._calculate_std` with the float square root abstracted
as a parameter (`variance ** 0.5`). -/
def calculate_std (sqrt : ℚ → ℚ) (prices : List ℚ) : ℚ :=
  if prices = [] then 0
  else
    sqrt ((prices.map
      (fun p => (p - prices.sum / (prices.length : ℚ))^2)).sum
        / (prices.length : ℚ))

/-- The indicator dict computed by `calculate_technical_indicators`. -/
structure Indicators where
  sma_7 : ℚ
  sma_14 : ℚ
  sma_30 : ℚ
  ema_12 : ℚ
  ema_26 : ℚ
  macd : ℚ
  macd_signal : ℚ
  macd_histogram : ℚ
  rsi_14 : ℚ
  bb_upper : ℚ
  bb_middle : ℚ
  bb_lower : ℚ
  bb_position : ℚ
  current_price : ℚ
  price_change_7d : ℚ
  volatility : ℚ
deriving DecidableEq

/-- `MarketDataFetcher.calculate_technical_indicators` applied to the
extracted close-price series (`[p['price'] for p in historical]`); fewer
than 14 points yield the empty dict (`none`).  The signal line is the EMA(9)
of the nine-element list holding the single MACD value (the code's
`self._calculate_ema([macd_line] * 9, 9)`). -/
def calculate_technical_indicators (sqrt : ℚ → ℚ) (prices : List ℚ) :
    Option Indicators :=
  if prices.length < 14 then none
  else
    let sma_7 := if 7 ≤ prices.length then (takeLast prices 7).sum / 7
      else lastD prices
    let sma_14 := if 14 ≤ prices.length then (takeLast prices 14).sum / 14
      else lastD prices
    let sma_30 := if 30 ≤ prices.length then (takeLast prices 30).sum / 30
      else lastD prices
    let ema_12 := calculate_ema prices 12
    let ema_26 := calculate_ema prices 26
    let macd_line := ema_12 - ema_26
    let signal_line := calculate_ema (List.replicate 9 macd_line) 9
    let macd_histogram := macd_line - signal_line
    let changes := List.zipWith (fun a b => a - b) (prices.drop 1) prices
    let gains := changes.map (fun c => if 0 < c then c else 0)
    let losses := changes.map (fun c => if c < 0 then -c else 0)
    let avg_gain := if gains = [] then 0 else (takeLast gains 14).sum / 14
    let avg_loss := if losses = [] then 0 else (takeLast losses 14).sum / 14
    let rsi := if avg_loss = 0 then 100
      else 100 - 100 / (1 + avg_gain / avg_loss)
    let sma_20 := if 20 ≤ prices.length then (takeLast prices 20).sum / 20
      else lastD prices
    let std_20 := if 20 ≤ prices.length then
        calculate_std sqrt (takeLast prices 20)
      else 0
    let bb_upper := sma_20 + 2 * std_20
    let bb_lower := sma_20 - 2 * std_20
    let bb_position := if 0 < bb_upper - bb_lower then
        (lastD prices - bb_lower) / (bb_upper - bb_lower)
      else 1/2
    let p0 := prices.headD 0
    some
      { sma_7 := sma_7, sma_14 := sma_14, sma_30 := sma_30,
        ema_12 := ema_12, ema_26 := ema_26, macd := macd_line,
        macd_signal := signal_line, macd_histogram := macd_histogram,
        rsi_14 := rsi, bb_upper := bb_upper, bb_middle := sma_20,
        bb_lower := bb_lower, bb_position := bb_position,
        current_price := lastD prices,
        price_change_7d := if 0 < p0 then ((lastD prices - p0) / p0) * 100
          else 0,
        volatility := if 0 < sma_20 then std_20 / sma_20 else 0 }

/-- The degenerate signal line: the EMA(9) of nine copies of one value is
that value. -/
theorem calculate_ema_replicate (m : ℚ) :
    calculate_ema (List.replicate 9 m) 9 = m := by
  unfold calculate_ema
  rw [if_neg (by simp)]
  have hdrop : (List.replicate 9 m).drop 9 = [] := by simp
  have htake : (List.replicate 9 m).take 9 = List.replicate 9 m := by simp
  rw [hdrop, htake, List.foldl_nil, List.sum_replicate, nsmul_eq_mul]
  norm_num

/-- Claim C9: for every price series of at least 14 points, the computed
MACD signal line — the EMA(9) of a nine-element list holding the single
MACD value — equals the MACD line itself, and the MACD histogram is exactly
0, for any square-root routine. -/
theorem macd_signal_degenerate (sqrt : ℚ → ℚ) (prices : List ℚ)
    (hlen : 14 ≤ prices.length) :
    ∃ ind, calculate_technical_indicators sqrt prices = some ind ∧
      ind.macd_signal = ind.macd ∧ ind.macd_histogram = 0 := by
  unfold calculate_technical_indicators
  rw [if_neg (not_lt.mpr hlen)]
  refine ⟨_, rfl, ?_, ?_⟩
  · exact calculate_ema_replicate _
  · rw [calculate_ema_replicate]
    exact sub_self _

/-- Closed witness for Claim C9 at the 14-point series `1, 2, ..., 14`. -/
theorem macd_signal_degenerate_witness :
    ∃ ind, calculate_technical_indicators (fun q => q)
        [1, 2, 3, 4, 5, 6, 7, 8, 9, 10, 11, 12, 13, 14] = some ind ∧
      ind.macd_signal = ind.macd ∧ ind.macd_histogram = 0 :=
  macd_signal_degenerate (fun q => q)
    [1, 2, 3, 4, 5, 6, 7, 8, 9, 10, 11, 12, 13, 14] (by simp)

end AITrading
